import Mathlib

/-!
Verification development for the switchbot_bot repository (Go, `src/main.go`).

Shallow embedding conventions:
* Go strings are embedded as `List Char` (`Str`); string literals are taken
  character-for-character from the source file.
* Go `float64` values are embedded as `ℚ`.  The program never performs float
  arithmetic: floats are only parsed from decimal text (`strconv.ParseFloat`),
  formatted with `%.1f`, and compared for exact equality, so the exact rational
  denotation is faithful on the decimal values that actually flow through it.
* Go `int` is embedded as `ℤ` (no arithmetic that could overflow occurs on the
  compared values).
* Nullable pointers (`*int`, `*float64`) are embedded as `Option`.
* Fallible functions returning `(T, error)` are embedded as `Except Str T`.
* The two concrete regular expressions of `isRepeated`
  (label `([\d.]+)` suffix, label `(\d+)` suffix) are embedded by the
  specialized leftmost-match scanner `scanMatch`: at each starting position,
  match the literal label, then a maximal nonempty run of class characters,
  then the literal suffix; the first position where this succeeds yields the
  captured run.  Because no suffix starts with a class character, this is
  exactly the leftmost-first semantics of the Go regexps.
-/

abbrev Str := List Char

def toL (s : String) : Str := s.toList

/-- Decimal digit character, mirroring the digits produced by Go `%d`/`%.1f`. -/
def dChar : ℕ → Char
  | 0 => '0'
  | 1 => '1'
  | 2 => '2'
  | 3 => '3'
  | 4 => '4'
  | 5 => '5'
  | 6 => '6'
  | 7 => '7'
  | 8 => '8'
  | _ => '9'

/-- Numeric value of a digit character. -/
def dVal (c : Char) : ℕ := c.toNat - 48

/-- Value of a digit string read in base 10 (the core of `strconv` parsing). -/
def valNat (s : Str) : ℕ := s.foldl (fun a c => 10 * a + dVal c) 0

/-- Decimal digits of a natural number, most significant first (fuel-indexed
so that it is structural; `natDigits` supplies sufficient fuel). -/
def natDigitsAux : ℕ → ℕ → Str
  | 0, _ => []
  | fuel + 1, n =>
    if n < 10 then [dChar n] else natDigitsAux fuel (n / 10) ++ [dChar (n % 10)]

def natDigits (n : ℕ) : Str := natDigitsAux (n + 1) n

/-- Decimal rendering of a Go `int` by `%d`. -/
def intToChars (i : ℤ) : Str :=
  if i < 0 then '-' :: natDigits i.natAbs else natDigits i.natAbs

/-- Character class `[\d.]` of the temperature/humidity patterns. -/
def isFloatClass (c : Char) : Bool := c.isDigit || c = '.'

/-- Character class `\d` of the CO2 pattern. -/
def isDigitClass (c : Char) : Bool := c.isDigit

/-- Test `leadsWith pat t`: holds when `pat` is a leading segment of `t`. -/
def leadsWith : Str → Str → Bool
  | [], _ => true
  | _ :: _, [] => false
  | p :: ps, c :: cs => p = c && leadsWith ps cs

/-- Consume the literal label at the front of the text, returning the rest. -/
def stripLabel : Str → Str → Option Str
  | [], t => some t
  | _ :: _, [] => none
  | l :: ls, c :: cs => if l = c then stripLabel ls cs else none

/-- Attempt the pattern (label, nonempty class run, suffix) at one position;
on success return the captured run (the regexp's first capture group). -/
def tryAt (label : Str) (cls : Char → Bool) (sfx : Str) (t : Str) : Option Str :=
  match stripLabel label t with
  | none => none
  | some r =>
    let run := r.takeWhile cls
    if run = [] then none
    else if leadsWith sfx (r.dropWhile cls) then some run else none

/-- Leftmost match of the pattern over the whole text
(`regexp.FindStringSubmatch`, capture group 1). -/
def scanMatch (label : Str) (cls : Char → Bool) (sfx : Str) : Str → Option Str
  | [] => none
  | c :: rest =>
    match tryAt label cls sfx (c :: rest) with
    | some run => some run
    | none => scanMatch label cls sfx rest

/-- Split at the first dot: characters before it, and those after (if any). -/
def splitAtDot : Str → Str × Option Str
  | [] => ([], none)
  | c :: r =>
    if c = '.' then ([], some r) else ((splitAtDot r).1.cons c, (splitAtDot r).2)

/-- Go `strconv.ParseFloat` restricted to its possible inputs here (strings over
`[\d.]`): at most one dot and at least one digit, value read in base 10. -/
def parseGoFloat (s : Str) : Option ℚ :=
  match splitAtDot s with
  | (ip, none) =>
    if ip ≠ [] ∧ ip.all (fun c => c.isDigit) then some (valNat ip : ℚ) else none
  | (ip, some fp) =>
    if ip.all (fun c => c.isDigit) ∧ fp.all (fun c => c.isDigit) ∧
        (ip ≠ [] ∨ fp ≠ []) ∧ ¬ fp.any (fun c => c = '.')
    then some ((valNat ip : ℚ) + (valNat fp : ℚ) / (10 : ℚ) ^ fp.length)
    else none

/-- Go `strconv.Atoi` restricted to the runs produced by `(\d+)` (all digits,
nonempty); the embedding ignores 64-bit overflow, which no claim touches. -/
def parseGoInt (s : Str) : Option ℤ :=
  if s ≠ [] ∧ s.all (fun c => c.isDigit) then some (valNat s : ℤ) else none

/- String literals, character-for-character from src/main.go. -/

def tempLabel : Str := toL "Ê∏©Â∫¶: "
def tempSfx : Str := toL "Â∫¶"
def humLabel : Str := toL "ÊπøÂ∫¶: "
def humSfx : Str := toL "%"
def co2Label : Str := toL "CO2: "
def co2Sfx : Str := toL "ppm"
def warnEmoji : Str := toL "‚ö†Ô∏è"
def batteryEmojiStr : Str := toL "üîã"
def fireIcon : Str := toL "üî•"
def windIcon : Str := toL "üí®"
def treeIcon : Str := toL "üå≥"

/-- Go `extractFloatValue(text, pattern)` where the pattern is
label ++ `([\d.]+)` ++ suffix: leftmost match, then `ParseFloat`. -/
def extractFloatValue (label sfx text : Str) : Option ℚ :=
  match scanMatch label isFloatClass sfx text with
  | none => none
  | some run => parseGoFloat run

/-- Go `extractIntValue(text, pattern)` where the pattern is
label ++ `(\d+)` ++ suffix: leftmost match, then `Atoi`. -/
def extractIntValue (label sfx text : Str) : Option ℤ :=
  match scanMatch label isDigitClass sfx text with
  | none => none
  | some run => parseGoInt run

/-- Go `ptrEquals`: nil pointers are equal, nil and non-nil are not, two non-nil
pointers compare their pointees. -/
def ptrEquals {α : Type} [DecidableEq α] : Option α → Option α → Bool
  | none, none => true
  | some a, some b => decide (a = b)
  | _, _ => false

structure SwitchBotDevice where
  deviceId : Str
  deviceType : Str
  deviceName : Str
deriving DecidableEq

structure SwitchBotDeviceStatus where
  battery : Option ℤ
  temperature : Option ℚ
  humidity : Option ℚ
  CO2 : Option ℤ
deriving DecidableEq

structure MastodonPost where
  content : Str
deriving DecidableEq

/-- Go `isRepeated`: the loop returns `false` at the first history entry whose
parsed fields differ from the current reading, and `true` otherwise. -/
def isRepeated (current : SwitchBotDeviceStatus) (previousMessages : List Str) : Bool :=
  previousMessages.all fun msg =>
    ptrEquals (extractFloatValue tempLabel tempSfx msg) current.temperature &&
    ptrEquals (extractFloatValue humLabel humSfx msg) current.humidity &&
    ptrEquals (extractIntValue co2Label co2Sfx msg) current.CO2

/-- Go `makeDeviceHeader`. -/
def makeDeviceHeader (deviceName : Str) : Str := toL "# " ++ deviceName

/-- Rest of the text after the first `>` of an HTML tag, provided it occurs
before any newline (Go regexp `.` does not match newlines). -/
def findTagEnd : Str → Option Str
  | [] => none
  | '>' :: r => some r
  | '\n' :: _ => none
  | _ :: r => findTagEnd r

/-- Fuel-indexed leftmost-first replacement of `<.*?>` by the empty string. -/
def stripAux : ℕ → Str → Str
  | 0, s => s
  | _ + 1, [] => []
  | fuel + 1, '<' :: r =>
    match findTagEnd r with
    | some r2 => stripAux fuel r2
    | none => '<' :: stripAux fuel r
  | fuel + 1, c :: r => c :: stripAux fuel r

/-- Go `stripHTMLTags`: remove every `<.*?>` match. -/
def stripHTMLTags (s : Str) : Str := stripAux s.length s

/-- Suffix of the text starting at the first occurrence of the pattern
(`strings.Index` followed by slicing `text[idx:]`), `none` when absent. -/
def firstSuffix (pat : Str) : Str → Option Str
  | [] => if leadsWith pat [] then some [] else none
  | c :: rest =>
    if leadsWith pat (c :: rest) then some (c :: rest) else firstSuffix pat rest

/-- Go `extractRecentMessagesForDevice`: collect, for each post, the suffix of its
tag-stripped content from the device header on; the error is always nil. -/
def extractRecentMessagesForDevice (deviceName : Str) (posts : List MastodonPost) :
    Except Str (List Str) :=
  Except.ok (posts.filterMap fun post =>
    firstSuffix (makeDeviceHeader deviceName) (stripHTMLTags post.content))

/-- Go `batteryStatusEmoji`: warning emoji when the reading is repeated. -/
def batteryStatusEmoji (deviceName : Str) (posts : List MastodonPost)
    (status : SwitchBotDeviceStatus) : Except Str Str :=
  match extractRecentMessagesForDevice deviceName posts with
  | .error e => .error (toL "extractRecentMessagesForDevice failed: " ++ e)
  | .ok previousMessages =>
    if isRepeated status previousMessages then .ok warnEmoji else .ok batteryEmojiStr

/-- Go `%.1f`: sign, integer digits, dot, one tenths digit.  Fprintf rounds the
binary float to one decimal; on the readings at stake (exact multiples of one
tenth) no rounding occurs and `round` agrees with it exactly. -/
def formatFixed1 (q : ℚ) : Str :=
  (if round (q * 10) < 0 then ['-'] else []) ++
    natDigits ((round (q * 10)).natAbs / 10) ++
    '.' :: [dChar ((round (q * 10)).natAbs % 10)]

/-- The temperature line appended when the field is present. -/
def tempLineOf : Option ℚ → Str
  | none => []
  | some t => tempLabel ++ formatFixed1 t ++ tempSfx ++ ['\n']

/-- The humidity line appended when the field is present. -/
def humLineOf : Option ℚ → Str
  | none => []
  | some h => humLabel ++ formatFixed1 h ++ humSfx ++ ['\n']

/-- CO2 tier icon (`switch` on the current value). -/
def co2Icon (c : ℤ) : Str :=
  if 1500 ≤ c then fireIcon else if 1000 ≤ c then windIcon else treeIcon

/-- The CO2 line appended when the field is present. -/
def co2LineOf : Option ℤ → Str
  | none => []
  | some c => co2Label ++ intToChars c ++ toL "ppm " ++ co2Icon c ++ ['\n']

/-- The three conditional field lines of `generateStatusMessage`, in order. -/
def fieldLinesText (status : SwitchBotDeviceStatus) : Str :=
  tempLineOf status.temperature ++ humLineOf status.humidity ++ co2LineOf status.CO2

/-- The battery suffix ` (emoji NN%)` appended when the battery is present,
threading the (never occurring) error of `batteryStatusEmoji`. -/
def batteryPartResult (deviceName : Str) (posts : List MastodonPost)
    (status : SwitchBotDeviceStatus) : Except Str Str :=
  match status.battery with
  | none => .ok []
  | some bat =>
    match batteryStatusEmoji deviceName posts status with
    | .error e => .error e
    | .ok emoji => .ok (toL " (" ++ emoji ++ intToChars bat ++ toL "%)")

/-- The pure composition part of `generateStatusMessage` (builder section):
header, optional battery suffix, newline, conditional field lines. -/
def generateStatusMessageCore (deviceName : Str) (posts : List MastodonPost)
    (status : SwitchBotDeviceStatus) : Except Str Str :=
  match batteryPartResult deviceName posts status with
  | .error e => .error e
  | .ok bp => .ok (makeDeviceHeader deviceName ++ bp ++ '\n' :: fieldLinesText status)

/-- Go `generateStatusMessage`, with the two effectful collaborators passed as
oracle results: the device status fetch, and the CloudWatch metric emission
(the latter is only logged by the source and never examined). -/
def generateStatusMessage (device : SwitchBotDevice) (posts : List MastodonPost)
    (fetchResult : Except Str SwitchBotDeviceStatus)
    (metricResult : Except Str Unit) : Except Str Str :=
  match fetchResult with
  | .error e => .error e
  | .ok status => generateStatusMessageCore device.deviceName posts status

/-- Go `isTargetDevice`: membership in the two-element recognized-type set. -/
def isTargetDevice (deviceType : Str) : Bool :=
  deviceType = toL "Meter" || deviceType = toL "MeterPro(CO2)"

/-- The handler loop: per recognized device, keep the composed message;
devices whose generation fails are skipped. -/
def handlerMessages (devices : List SwitchBotDevice) (posts : List MastodonPost)
    (fetchStatus : SwitchBotDevice → Except Str SwitchBotDeviceStatus)
    (metric : SwitchBotDevice → Except Str Unit) : List Str :=
  devices.filterMap fun device =>
    if isTargetDevice device.deviceType then
      match generateStatusMessage device posts (fetchStatus device) (metric device) with
      | .error _ => none
      | .ok message => some message
    else none

/-- Go `strings.Join` with separator newline. -/
def joinNewline : List Str → Str
  | [] => []
  | [m] => m
  | m :: rest => m ++ '\n' :: joinNewline rest

/-- The publish decision of the handler: the posted payload, or `none` when no
message was produced (`if len(messages) > 0`). -/
def handlerPublish (devices : List SwitchBotDevice) (posts : List MastodonPost)
    (fetchStatus : SwitchBotDevice → Except Str SwitchBotDeviceStatus)
    (metric : SwitchBotDevice → Except Str Unit) : Option Str :=
  let messages := handlerMessages devices posts fetchStatus metric
  if messages.length > 0 then some (joinNewline messages) else none

/-- The handler's final result, given the publish collaborator: publish the
joined payload when one exists, otherwise return nil. -/
def handlerResult (devices : List SwitchBotDevice) (posts : List MastodonPost)
    (fetchStatus : SwitchBotDevice → Except Str SwitchBotDeviceStatus)
    (metric : SwitchBotDevice → Except Str Unit)
    (publish : Str → Except Str Unit) : Except Str Unit :=
  match handlerPublish devices posts fetchStatus metric with
  | some payload => publish payload
  | none => .ok ()

/-- One attempt's observable outcome inside `requestWithBackoff`: a failure of
request creation, transport, body reading or JSON decoding, or a decoded
`SwitchBotResponse` envelope. -/
inductive AttemptOutcome (T : Type) where
  | requestCreationError (e : Str)
  | httpError (e : Str)
  | readError (e : Str)
  | unmarshalError (e : Str)
  | envelope (statusCode : ℤ) (message : Str) (body : T)

/-- The errors `requestWithBackoff` can return, each mirroring one of the
source's wrapped `fmt.Errorf` messages. -/
inductive BackoffError where
  | requestCreationFailed (e : Str)
  | httpRequestFailed (e : Str)
  | readingResponseFailed (e : Str)
  | unmarshalFailed (e : Str)
  | maxRetriesReached (lastMessage : Str)
  | unexpectedStatusCode (code : ℤ) (message : Str)
  | fellThrough
deriving DecidableEq

/-- Result of a `requestWithBackoff` run together with its observable trace:
number of loop iterations entered, and the sleep durations in seconds. -/
structure BackoffRun (T : Type) where
  result : Except BackoffError T
  attempts : ℕ
  sleepsSeconds : List ℕ

/-- The `for attempt := range 5` loop, fuel-indexed.  A `190` envelope with
`attempt < 4` sleeps `2^attempt` seconds and retries; `100` succeeds; any
other code or any transport/decoding failure returns at once. -/
def backoffAux {T : Type} (stub : ℕ → AttemptOutcome T) :
    ℕ → ℕ → List ℕ → BackoffRun T
  | 0, attempt, sleeps => ⟨.error .fellThrough, attempt, sleeps.reverse⟩
  | fuel + 1, attempt, sleeps =>
    match stub attempt with
    | .requestCreationError e => ⟨.error (.requestCreationFailed e), attempt + 1, sleeps.reverse⟩
    | .httpError e => ⟨.error (.httpRequestFailed e), attempt + 1, sleeps.reverse⟩
    | .readError e => ⟨.error (.readingResponseFailed e), attempt + 1, sleeps.reverse⟩
    | .unmarshalError e => ⟨.error (.unmarshalFailed e), attempt + 1, sleeps.reverse⟩
    | .envelope code message body =>
      if code = 100 then ⟨.ok body, attempt + 1, sleeps.reverse⟩
      else if code = 190 then
        if attempt < 4 then backoffAux stub fuel (attempt + 1) (2 ^ attempt :: sleeps)
        else ⟨.error (.maxRetriesReached message), attempt + 1, sleeps.reverse⟩
      else ⟨.error (.unexpectedStatusCode code message), attempt + 1, sleeps.reverse⟩

/-- Go `requestWithBackoff` over a stub of per-attempt outcomes. -/
def requestWithBackoff {T : Type} (stub : ℕ → AttemptOutcome T) : BackoffRun T :=
  backoffAux stub 5 0 []

/-- Statement vocabulary: the two readings differ in exactly one of the three
compared fields (battery is not compared and may vary freely). -/
def oneFieldChanged (a b : SwitchBotDeviceStatus) : Prop :=
  (a.temperature ≠ b.temperature ∧ a.humidity = b.humidity ∧ a.CO2 = b.CO2) ∨
  (a.temperature = b.temperature ∧ a.humidity ≠ b.humidity ∧ a.CO2 = b.CO2) ∨
  (a.temperature = b.temperature ∧ a.humidity = b.humidity ∧ a.CO2 ≠ b.CO2)

/-- Statement vocabulary: two history entry texts whose parsed fields differ in
exactly one of the three compared fields. -/
def entryOneFieldChanged (m m2 : Str) : Prop :=
  (extractFloatValue tempLabel tempSfx m ≠ extractFloatValue tempLabel tempSfx m2 ∧
    extractFloatValue humLabel humSfx m = extractFloatValue humLabel humSfx m2 ∧
    extractIntValue co2Label co2Sfx m = extractIntValue co2Label co2Sfx m2) ∨
  (extractFloatValue tempLabel tempSfx m = extractFloatValue tempLabel tempSfx m2 ∧
    extractFloatValue humLabel humSfx m ≠ extractFloatValue humLabel humSfx m2 ∧
    extractIntValue co2Label co2Sfx m = extractIntValue co2Label co2Sfx m2) ∨
  (extractFloatValue tempLabel tempSfx m = extractFloatValue tempLabel tempSfx m2 ∧
    extractFloatValue humLabel humSfx m = extractFloatValue humLabel humSfx m2 ∧
    extractIntValue co2Label co2Sfx m ≠ extractIntValue co2Label co2Sfx m2)

/-- Statement vocabulary: number of present fields among the three line-producing
fields of a reading. -/
def presentFieldCount (status : SwitchBotDeviceStatus) : ℕ :=
  (if status.temperature.isSome then 1 else 0) +
    (if status.humidity.isSome then 1 else 0) +
    (if status.CO2.isSome then 1 else 0)

/-! ### Basic lemmas about the embedded primitives -/

theorem ptrEquals_eq_true {α : Type} [DecidableEq α] (a b : Option α) :
    ptrEquals a b = true ↔ a = b := by
  cases a <;> cases b <;> simp [ptrEquals]

theorem isRepeated_iff (current : SwitchBotDeviceStatus) (msgs : List Str) :
    isRepeated current msgs = true ↔
      ∀ m ∈ msgs,
        extractFloatValue tempLabel tempSfx m = current.temperature ∧
        extractFloatValue humLabel humSfx m = current.humidity ∧
        extractIntValue co2Label co2Sfx m = current.CO2 := by
  unfold isRepeated
  rw [List.all_eq_true]
  refine forall_congr' fun m => forall_congr' fun _ => ?_
  rw [Bool.and_eq_true, Bool.and_eq_true, ptrEquals_eq_true, ptrEquals_eq_true,
    ptrEquals_eq_true, and_assoc]

theorem batteryStatusEmoji_eq (deviceName : Str) (posts : List MastodonPost)
    (status : SwitchBotDeviceStatus) :
    batteryStatusEmoji deviceName posts status =
      .ok (if isRepeated status (posts.filterMap fun post =>
          firstSuffix (makeDeviceHeader deviceName) (stripHTMLTags post.content))
        then warnEmoji else batteryEmojiStr) := by
  unfold batteryStatusEmoji extractRecentMessagesForDevice
  split <;> rename_i h
  · cases h
  · cases h; split <;> simp_all

theorem generateStatusMessageCore_ok (deviceName : Str) (posts : List MastodonPost)
    (status : SwitchBotDeviceStatus) :
    ∃ m, generateStatusMessageCore deviceName posts status = .ok m := by
  unfold generateStatusMessageCore batteryPartResult
  cases hb : status.battery with
  | none => exact ⟨_, rfl⟩
  | some bat => rw [batteryStatusEmoji_eq]; exact ⟨_, rfl⟩

/-! ### C1: duplicate detection over an empty history set -/

/-- C1 counterexample: for a reading with all four fields present and an empty
matching-history set, `isRepeated` returns `true` (repeated) — not
"not repeated" as the claim states: the loop body never runs and the function
falls through to `return true` (vacuous truth over the empty set). -/
theorem c1_empty_history_counterexample :
    isRepeated ⟨some 85, some (47 / 2 : ℚ), some (226 / 5 : ℚ), some 850⟩ [] = true := rfl

/-- C1 (amended): for every current reading and every device whose set of
matching history entries is empty (no recent post contains that device's header
token), the Duplicate Detector returns "repeated" (vacuous truth over the empty
set); in particular a reading with all four fields present and an empty history
set is classified repeated. -/
theorem c1_empty_history_repeated (current : SwitchBotDeviceStatus) (deviceName : Str)
    (posts : List MastodonPost)
    (h : ∀ post ∈ posts,
      firstSuffix (makeDeviceHeader deviceName) (stripHTMLTags post.content) = none) :
    extractRecentMessagesForDevice deviceName posts = .ok [] ∧
    isRepeated current [] = true := by
  constructor
  · unfold extractRecentMessagesForDevice
    rw [List.filterMap_eq_nil_iff.mpr h]
  · rfl

/-- C1 witness: the amended theorem applied at a concrete reading, device name
and post list whose single post does not contain the header token. -/
theorem c1_empty_history_repeated_witness :
    extractRecentMessagesForDevice (toL "Room") [⟨toL "<p>unrelated</p>"⟩] = .ok [] ∧
    isRepeated ⟨some 85, some (47 / 2 : ℚ), some (226 / 5 : ℚ), some 850⟩ [] = true :=
  c1_empty_history_repeated ⟨some 85, some (47 / 2 : ℚ), some (226 / 5 : ℚ), some 850⟩
    (toL "Room") [⟨toL "<p>unrelated</p>"⟩] (by decide)

/-! ### C3 and C4: the backoff fetcher -/

/-- C3: on in-body status 190 the fetcher retries with waits of 2^attempt
seconds (1s, 2s, 4s, 8s for attempts 0..3), up to 5 total attempts: 190 on the
first four attempts and 100 on the fifth gives exactly 5 attempts and the fifth
decoded body; 190 on all five gives exactly 5 attempts and a max-retries error
carrying the last message. -/
theorem c3_backoff_retry_policy {T : Type} (stub : ℕ → AttemptOutcome T) :
    (∀ finalMessage finalBody,
      (∀ i, i < 4 → ∃ m b, stub i = .envelope 190 m b) →
      stub 4 = .envelope 100 finalMessage finalBody →
      requestWithBackoff stub = ⟨.ok finalBody, 5, [1, 2, 4, 8]⟩) ∧
    (∀ lastMessage lastBody,
      (∀ i, i < 4 → ∃ m b, stub i = .envelope 190 m b) →
      stub 4 = .envelope 190 lastMessage lastBody →
      requestWithBackoff stub = ⟨.error (.maxRetriesReached lastMessage), 5, [1, 2, 4, 8]⟩) := by
  constructor
  · intro finalMessage finalBody h190 h4
    obtain ⟨m0, b0, e0⟩ := h190 0 (by omega)
    obtain ⟨m1, b1, e1⟩ := h190 1 (by omega)
    obtain ⟨m2, b2, e2⟩ := h190 2 (by omega)
    obtain ⟨m3, b3, e3⟩ := h190 3 (by omega)
    simp [requestWithBackoff, backoffAux, e0, e1, e2, e3, h4]
  · intro lastMessage lastBody h190 h4
    obtain ⟨m0, b0, e0⟩ := h190 0 (by omega)
    obtain ⟨m1, b1, e1⟩ := h190 1 (by omega)
    obtain ⟨m2, b2, e2⟩ := h190 2 (by omega)
    obtain ⟨m3, b3, e3⟩ := h190 3 (by omega)
    simp [requestWithBackoff, backoffAux, e0, e1, e2, e3, h4]

/-- C3 witness: the theorem applied to a concrete stub returning 190 four times
and then 100. -/
theorem c3_backoff_retry_policy_witness :
    requestWithBackoff (fun i => if i < 4 then .envelope 190 (toL "busy") (toL "x")
      else .envelope 100 (toL "ok") (toL "payload")) =
      ⟨.ok (toL "payload"), 5, [1, 2, 4, 8]⟩ :=
  (c3_backoff_retry_policy (fun i => if i < 4 then .envelope 190 (toL "busy") (toL "x")
      else .envelope 100 (toL "ok") (toL "payload"))).1
    (toL "ok") (toL "payload")
    (fun i hi => ⟨toL "busy", toL "x", by interval_cases i <;> rfl⟩) rfl

/-- C4: a first response whose in-body status is neither 100 nor 190 fails
immediately after exactly 1 attempt with an unexpected-status error carrying
the code and message; request-creation, transport, body-read and JSON-decode
failures on the first attempt also fail immediately after exactly 1 attempt
with their own wrapped errors, with no sleep. -/
theorem c4_backoff_fail_fast {T : Type} (stub : ℕ → AttemptOutcome T) :
    (∀ code m b, stub 0 = .envelope code m b → code ≠ 100 → code ≠ 190 →
      requestWithBackoff stub = ⟨.error (.unexpectedStatusCode code m), 1, []⟩) ∧
    (∀ e, stub 0 = .requestCreationError e →
      requestWithBackoff stub = ⟨.error (.requestCreationFailed e), 1, []⟩) ∧
    (∀ e, stub 0 = .httpError e →
      requestWithBackoff stub = ⟨.error (.httpRequestFailed e), 1, []⟩) ∧
    (∀ e, stub 0 = .readError e →
      requestWithBackoff stub = ⟨.error (.readingResponseFailed e), 1, []⟩) ∧
    (∀ e, stub 0 = .unmarshalError e →
      requestWithBackoff stub = ⟨.error (.unmarshalFailed e), 1, []⟩) := by
  refine ⟨?_, ?_, ?_, ?_, ?_⟩
  · intro code m b h0 h100 h190
    simp [requestWithBackoff, backoffAux, h0, h100, h190]
  all_goals intro e h0
  all_goals simp [requestWithBackoff, backoffAux, h0]

/-- C4 witness: the theorem applied to a concrete stub returning status 250 on
the first attempt. -/
theorem c4_backoff_fail_fast_witness :
    requestWithBackoff (fun _ => .envelope 250 (toL "denied") (toL "x")) =
      ⟨.error (.unexpectedStatusCode 250 (toL "denied")), 1, []⟩ :=
  (c4_backoff_fail_fast (fun _ => .envelope 250 (toL "denied") (toL "x"))).1
    250 (toL "denied") (toL "x") rfl (by decide) (by decide)

/-! ### C10: error channels of the composition path -/

/-- C10: `extractRecentMessagesForDevice` always returns a nil error despite
its error-valued signature, so `batteryStatusEmoji` never fails, and
`generateStatusMessage` returns an error if and only if the device's status
fetch fails; the metrics-emission outcome is never propagated (the message is
the same whatever the metric result). -/
theorem c10_error_propagation (deviceName : Str) (posts : List MastodonPost)
    (status : SwitchBotDeviceStatus) (device : SwitchBotDevice)
    (fetchResult : Except Str SwitchBotDeviceStatus) (metricResult : Except Str Unit) :
    (∃ msgs, extractRecentMessagesForDevice deviceName posts = .ok msgs) ∧
    (∃ emoji, batteryStatusEmoji deviceName posts status = .ok emoji) ∧
    ((∃ e, generateStatusMessage device posts fetchResult metricResult = .error e) ↔
      (∃ e, fetchResult = .error e)) ∧
    (∀ metricResult2, generateStatusMessage device posts fetchResult metricResult =
      generateStatusMessage device posts fetchResult metricResult2) := by
  refine ⟨⟨_, rfl⟩, ⟨_, batteryStatusEmoji_eq deviceName posts status⟩, ?_, fun _ => rfl⟩
  cases fetchResult with
  | error e => simp [generateStatusMessage]
  | ok status2 =>
    obtain ⟨m, hm⟩ := generateStatusMessageCore_ok device.deviceName posts status2
    simp [generateStatusMessage, hm]

/-! ### C8: the handler's publish decision -/

/-- C8: the handler joins the composed messages with newline separators and
publishes exactly when at least one message was produced; with zero produced
messages (in particular with zero recognized-type devices) no publish call is
made and the run ends without error. -/
theorem c8_publish_decision (devices : List SwitchBotDevice) (posts : List MastodonPost)
    (fetchStatus : SwitchBotDevice → Except Str SwitchBotDeviceStatus)
    (metric : SwitchBotDevice → Except Str Unit) (publish : Str → Except Str Unit) :
    (handlerPublish devices posts fetchStatus metric = none ↔
      handlerMessages devices posts fetchStatus metric = []) ∧
    (handlerMessages devices posts fetchStatus metric ≠ [] →
      handlerPublish devices posts fetchStatus metric =
        some (joinNewline (handlerMessages devices posts fetchStatus metric))) ∧
    (handlerMessages devices posts fetchStatus metric = [] →
      handlerResult devices posts fetchStatus metric publish = .ok ()) ∧
    ((∀ d ∈ devices, isTargetDevice d.deviceType = false) →
      handlerPublish devices posts fetchStatus metric = none) := by
  have hnone : ∀ h : handlerMessages devices posts fetchStatus metric = [],
      handlerPublish devices posts fetchStatus metric = none := by
    intro h; simp [handlerPublish, h]
  refine ⟨⟨?_, hnone⟩, ?_, ?_, ?_⟩
  · intro h
    by_contra hne
    have := List.length_pos.mpr hne
    simp [handlerPublish, this] at h
  · intro hne
    have := List.length_pos.mpr hne
    simp [handlerPublish, this]
  · intro h
    simp [handlerResult, hnone h]
  · intro h
    apply hnone
    unfold handlerMessages
    rw [List.filterMap_eq_nil_iff]
    intro d hd
    simp [h d hd]

/-- C8 witness: a directory with one unrecognized device produces no messages,
no publish payload, and an error-free run. -/
theorem c8_publish_decision_witness :
    handlerPublish [⟨toL "A", toL "Hub Mini", toL "Hub"⟩] [] (fun _ => .error (toL "x"))
        (fun _ => .ok ()) = none ∧
    handlerResult [⟨toL "A", toL "Hub Mini", toL "Hub"⟩] [] (fun _ => .error (toL "x"))
        (fun _ => .ok ()) (fun _ => .error (toL "never")) = .ok () := by
  have h := c8_publish_decision [⟨toL "A", toL "Hub Mini", toL "Hub"⟩] []
    (fun _ => .error (toL "x")) (fun _ => .ok ()) (fun _ => .error (toL "never"))
  exact ⟨h.2.2.2 (by decide), h.2.2.1 (by decide)⟩

/-! ### C6: the battery suffix of the header line -/

/-- C6: the composed header carries the suffix ` (emoji NN%)` exactly when the
battery field is present, with the warning emoji chosen when the Duplicate
Detector flags the reading as repeated and the battery emoji otherwise; when
battery is absent no suffix appears and the duplicate check is not consulted
(the output does not depend on the recent posts at all). -/
theorem c6_battery_emoji_suffix (deviceName : Str) (posts : List MastodonPost)
    (status : SwitchBotDeviceStatus) :
    (∀ bat, status.battery = some bat →
      generateStatusMessageCore deviceName posts status =
        .ok (makeDeviceHeader deviceName ++
          (toL " (" ++
            (if isRepeated status (posts.filterMap fun post =>
                firstSuffix (makeDeviceHeader deviceName) (stripHTMLTags post.content))
              then warnEmoji else batteryEmojiStr) ++
            intToChars bat ++ toL "%)") ++
          '\n' :: fieldLinesText status)) ∧
    (status.battery = none →
      generateStatusMessageCore deviceName posts status =
        .ok (makeDeviceHeader deviceName ++ '\n' :: fieldLinesText status) ∧
      ∀ posts2, generateStatusMessageCore deviceName posts status =
        generateStatusMessageCore deviceName posts2 status) := by
  constructor
  · intro bat hbat
    unfold generateStatusMessageCore batteryPartResult
    rw [hbat, batteryStatusEmoji_eq]
  · intro hnone
    unfold generateStatusMessageCore batteryPartResult
    rw [hnone]
    exact ⟨by simp, fun _ => rfl⟩

/-- C6 witness: the theorem applied at a concrete battery-bearing reading with
an empty history (hence flagged repeated: warning emoji) and at a concrete
battery-less reading. -/
theorem c6_battery_emoji_suffix_witness :
    generateStatusMessageCore (toL "Room") [] ⟨some 85, none, none, none⟩ =
      .ok (makeDeviceHeader (toL "Room") ++
        (toL " (" ++
          (if isRepeated ⟨some 85, none, none, none⟩ (([] : List MastodonPost).filterMap fun post =>
              firstSuffix (makeDeviceHeader (toL "Room")) (stripHTMLTags post.content))
            then warnEmoji else batteryEmojiStr) ++
          intToChars 85 ++ toL "%)") ++
        '\n' :: fieldLinesText ⟨some 85, none, none, none⟩) ∧
    generateStatusMessageCore (toL "Room") [] ⟨none, none, none, some 900⟩ =
      .ok (makeDeviceHeader (toL "Room") ++ '\n' :: fieldLinesText ⟨none, none, none, some 900⟩) :=
  ⟨(c6_battery_emoji_suffix (toL "Room") [] ⟨some 85, none, none, none⟩).1 85 rfl,
    ((c6_battery_emoji_suffix (toL "Room") [] ⟨none, none, none, some 900⟩).2 rfl).1⟩

/-! ### C2: duplicate detection over a non-empty history set -/

/-- C2: over a non-empty matching-history set the detector returns repeated iff
every entry's parsed temperature, humidity and CO2 equal the current reading's
fields, with the `ptrEquals` field equality (two absent equal; absent/present
unequal; two present equal exactly when numerically identical); changing any
single compared field of the reading, or of any one entry, flips the result to
not repeated. -/
theorem c2_repeated_iff_all_match (current : SwitchBotDeviceStatus) (msgs : List Str)
    (hne : msgs ≠ []) :
    (isRepeated current msgs = true ↔
      ∀ m ∈ msgs,
        extractFloatValue tempLabel tempSfx m = current.temperature ∧
        extractFloatValue humLabel humSfx m = current.humidity ∧
        extractIntValue co2Label co2Sfx m = current.CO2) ∧
    (ptrEquals (none : Option ℚ) none = true ∧
      (∀ x : ℚ, ptrEquals (some x) none = false ∧ ptrEquals none (some x) = false) ∧
      (∀ x y : ℚ, ptrEquals (some x) (some y) = true ↔ x = y)) ∧
    (∀ current2, isRepeated current msgs = true → oneFieldChanged current current2 →
      isRepeated current2 msgs = false) ∧
    (∀ pre m m2 post, msgs = pre ++ m :: post → isRepeated current msgs = true →
      entryOneFieldChanged m m2 → isRepeated current (pre ++ m2 :: post) = false) := by
  refine ⟨isRepeated_iff current msgs, ⟨rfl, fun x => ⟨rfl, rfl⟩, fun x y => by
    simp [ptrEquals]⟩, ?_, ?_⟩
  · intro current2 hrep hchg
    obtain ⟨m, hm⟩ := List.exists_mem_of_ne_nil msgs hne
    have hall := (isRepeated_iff current msgs).mp hrep m hm
    rw [← Bool.not_eq_true, isRepeated_iff]
    intro hall2
    have h2 := hall2 m hm
    rcases hchg with ⟨h, he1, he2⟩ | ⟨he1, h, he2⟩ | ⟨he1, he2, h⟩ <;>
      [exact h (hall.1 ▸ h2.1.symm ▸ rfl); exact h (hall.2.1 ▸ h2.2.1.symm ▸ rfl);
        exact h (hall.2.2 ▸ h2.2.2.symm ▸ rfl)]
  · intro pre m m2 post hsplit hrep hchg
    have hall := (isRepeated_iff current msgs).mp hrep
    have hm : m ∈ msgs := by rw [hsplit]; simp
    have hmatch := hall m hm
    rw [← Bool.not_eq_true, isRepeated_iff]
    intro hall2
    have h2 := hall2 m2 (by simp)
    rcases hchg with ⟨h, he1, he2⟩ | ⟨he1, h, he2⟩ | ⟨he1, he2, h⟩
    · exact h (hmatch.1.trans h2.1.symm)
    · exact h (hmatch.2.1.trans h2.2.1.symm)
    · exact h (hmatch.2.2.trans h2.2.2.symm)

/-! ### Digit and number-rendering lemmas -/

theorem dVal_dChar (d : ℕ) (h : d < 10) : dVal (dChar d) = d := by
  interval_cases d <;> decide

theorem dChar_isDigit (d : ℕ) (h : d < 10) : (dChar d).isDigit = true := by
  interval_cases d <;> decide

theorem isDigit_ne (c : Char) (h : c.isDigit = true) :
    c ≠ '.' ∧ c ≠ '\n' ∧ c ≠ 'Ê' ∧ c ≠ 'C' ∧ c ≠ '-' := by
  refine ⟨?_, ?_, ?_, ?_, ?_⟩ <;> rintro rfl <;> revert h <;> decide

theorem valNat_append_digit (ds : Str) (c : Char) :
    valNat (ds ++ [c]) = 10 * valNat ds + dVal c := by
  unfold valNat
  rw [List.foldl_append]
  rfl

theorem natDigitsAux_spec (fuel : ℕ) : ∀ n, n < fuel →
    valNat (natDigitsAux fuel n) = n ∧ natDigitsAux fuel n ≠ [] ∧
      ∀ c ∈ natDigitsAux fuel n, c.isDigit = true := by
  induction fuel with
  | zero => intro n hn; omega
  | succ fuel ih =>
    intro n hn
    by_cases h10 : n < 10
    · have hv := dVal_dChar n h10
      have hd := dChar_isDigit n h10
      refine ⟨?_, ?_, ?_⟩ <;> simp [natDigitsAux, h10, valNat]
      · omega
      · exact hd
    · have hdiv : n / 10 < fuel := by
        have := Nat.div_lt_self (by omega : 0 < n) (by omega : 1 < 10)
        omega
      obtain ⟨hval, hne, hdig⟩ := ih (n / 10) hdiv
      refine ⟨?_, ?_, ?_⟩
      · simp only [natDigitsAux, if_neg h10]
        rw [valNat_append_digit, hval, dVal_dChar _ (Nat.mod_lt n (by omega))]
        omega
      · simp [natDigitsAux, h10]
      · simp only [natDigitsAux, if_neg h10]
        intro c hc
        rcases List.mem_append.mp hc with h | h
        · exact hdig c h
        · rcases List.mem_singleton.mp h with rfl
          exact dChar_isDigit _ (Nat.mod_lt n (by omega))

theorem natDigits_val (n : ℕ) : valNat (natDigits n) = n :=
  (natDigitsAux_spec (n + 1) n (by omega)).1

theorem natDigits_ne_nil (n : ℕ) : natDigits n ≠ [] :=
  (natDigitsAux_spec (n + 1) n (by omega)).2.1

theorem natDigits_all_digit (n : ℕ) : ∀ c ∈ natDigits n, c.isDigit = true :=
  (natDigitsAux_spec (n + 1) n (by omega)).2.2

/-! ### Lemmas about the pattern scanner -/

theorem leadsWith_iff (pat : Str) : ∀ t, leadsWith pat t = true ↔ pat <+: t := by
  induction pat with
  | nil => intro t; simp [leadsWith]
  | cons p ps ih =>
    intro t
    cases t with
    | nil => simp [leadsWith]
    | cons c cs =>
      rw [leadsWith, Bool.and_eq_true, decide_eq_true_eq, ih, List.cons_prefix_cons]

theorem leadsWith_refl_append (pat u : Str) : leadsWith pat (pat ++ u) = true :=
  (leadsWith_iff pat (pat ++ u)).mpr (List.prefix_append pat u)

theorem stripLabel_append (l : Str) : ∀ u, stripLabel l (l ++ u) = some u := by
  induction l with
  | nil => intro u; rfl
  | cons a l ih => intro u; simp [stripLabel, ih]

theorem stripLabel_some (l : Str) : ∀ t r, stripLabel l t = some r → t = l ++ r := by
  induction l with
  | nil => intro t r h; cases h; rfl
  | cons a l ih =>
    intro t r h
    cases t with
    | nil => cases h
    | cons c cs =>
      rw [stripLabel] at h
      by_cases hac : a = c
      · rw [if_pos hac] at h
        subst hac
        rw [List.cons_append, ih cs r h]
      · rw [if_neg hac] at h; cases h

theorem stripLabel_none_ext (l : Str) (x : Char) (hx : x ∉ l) :
    ∀ s B, stripLabel l s = none → stripLabel l (s ++ x :: B) = none := by
  induction l with
  | nil => intro s B h; cases h
  | cons a l ih =>
    intro s B h
    cases s with
    | nil =>
      have hax : ¬ (a = x) := fun hax => hx (by rw [hax]; exact List.mem_cons_self x l)
      simp only [List.nil_append, stripLabel]
      rw [if_neg hax]
    | cons c cs =>
      simp only [stripLabel] at h ⊢
      by_cases hac : a = c
      · rw [if_pos hac] at h ⊢
        exact ih (fun hm => hx (List.mem_cons_of_mem a hm)) cs B h
      · rw [if_neg hac]

theorem stripLabel_some_ext (l : Str) : ∀ s r u, stripLabel l s = some r →
    stripLabel l (s ++ u) = some (r ++ u) := by
  intro s r u h
  rw [stripLabel_some l s r h, List.append_assoc, stripLabel_append]

theorem leadsWith_false_ext (sfx : Str) (x : Char) (hx : x ∉ sfx) :
    ∀ t B, leadsWith sfx t = false → leadsWith sfx (t ++ x :: B) = false := by
  induction sfx with
  | nil => intro t B h; cases h
  | cons p ps ih =>
    intro t B h
    cases t with
    | nil =>
      simp only [List.nil_append, leadsWith]
      have hpx : ¬ (p = x) := fun hpx => hx (by rw [hpx]; exact List.mem_cons_self x ps)
      simp [hpx]
    | cons c cs =>
      simp only [leadsWith] at h ⊢
      rcases Bool.and_eq_false_iff.mp h with h1 | h1
      · rw [h1]; rfl
      · have h2 := ih (fun hm => hx (List.mem_cons_of_mem p hm)) cs B h1
        simp [h2]

theorem span_append (cls : Char → Bool) (y : Char) (hy : cls y = false) :
    ∀ run t, (∀ c ∈ run, cls c = true) →
      (run ++ y :: t).takeWhile cls = run ∧ (run ++ y :: t).dropWhile cls = y :: t := by
  intro run
  induction run with
  | nil => intro t _; simp [List.takeWhile, List.dropWhile, hy]
  | cons a run ih =>
    intro t hall
    have ha : cls a = true := hall a (List.mem_cons_self a run)
    have hrest := ih t (fun c hc => hall c (List.mem_cons_of_mem a hc))
    simp only [List.cons_append, List.takeWhile_cons, List.dropWhile_cons, ha]
    simp [hrest.1, hrest.2]

theorem mem_takeWhile (cls : Char → Bool) (l : Str) :
    ∀ c, c ∈ l.takeWhile cls → cls c = true := by
  induction l with
  | nil => intro c h; cases h
  | cons a t ih =>
    intro c h
    rw [List.takeWhile_cons] at h
    by_cases ha : cls a = true
    · rw [if_pos ha] at h
      rcases List.mem_cons.mp h with rfl | h
      · exact ha
      · exact ih c h
    · rw [if_neg ha] at h; cases h

theorem dropWhile_head_false (cls : Char → Bool) (l : Str) :
    ∀ y t, l.dropWhile cls = y :: t → cls y = false := by
  induction l with
  | nil => intro y t h; cases h
  | cons a l ih =>
    intro y t h
    rw [List.dropWhile_cons] at h
    by_cases ha : cls a = true
    · rw [if_pos ha] at h; exact ih y t h
    · rw [if_neg ha] at h
      cases h
      exact Bool.not_eq_true _ ▸ ha

theorem tryAt_none_ext (label : Str) (cls : Char → Bool) (sfx : Str) (x : Char)
    (hxl : x ∉ label) (hxc : cls x = false) (hsne : sfx ≠ []) (hxs : x ∉ sfx)
    (s B : Str) (h : tryAt label cls sfx s = none) :
    tryAt label cls sfx (s ++ x :: B) = none := by
  unfold tryAt at h ⊢
  cases hsl : stripLabel label s with
  | none => rw [stripLabel_none_ext label x hxl s B hsl]
  | some r =>
    rw [stripLabel_some_ext label s r (x :: B) hsl]
    rw [hsl] at h
    simp only at h ⊢
    cases hdw : r.dropWhile cls with
    | nil =>
      have hr : r.takeWhile cls = r := by
        have := List.takeWhile_append_dropWhile (p := cls) (l := r)
        rw [hdw, List.append_nil] at this
        exact this
      have hrall : ∀ c ∈ r, cls c = true := fun c hc =>
        mem_takeWhile cls r c (hr.symm ▸ hc)
      have hspan := span_append cls x hxc r B hrall
      rw [hspan.1, hspan.2]
      by_cases hre : r = []
      · subst hre
        simp
      · have hlw0 : leadsWith sfx [] = false := by
          cases sfx with
          | nil => exact absurd rfl hsne
          | cons p ps => rfl
        have h2 : leadsWith sfx (x :: B) = false := by
          have := leadsWith_false_ext sfx x hxs [] B hlw0
          simpa using this
        simp [hre, h2]
    | cons y t =>
      have hy : cls y = false := dropWhile_head_false cls r y t hdw
      have hdecomp : r = r.takeWhile cls ++ y :: t := by
        conv_lhs => rw [← List.takeWhile_append_dropWhile (p := cls) (l := r)]
        rw [hdw]
      have hrall : ∀ c ∈ r.takeWhile cls, cls c = true := mem_takeWhile cls r
      have hspan2 := span_append cls y hy (r.takeWhile cls) (t ++ x :: B) hrall
      have harr : r ++ x :: B = r.takeWhile cls ++ y :: (t ++ x :: B) := by
        conv_lhs => rw [hdecomp]
        simp
      rw [harr, hspan2.1, hspan2.2]
      rw [hdw] at h
      by_cases hre : r.takeWhile cls = []
      · rw [if_pos hre]
      · rw [if_neg hre] at h ⊢
        cases hlw : leadsWith sfx (y :: t) with
        | true => rw [hlw] at h; simp at h
        | false =>
          have h3 := leadsWith_false_ext sfx x hxs (y :: t) B hlw
          rw [List.cons_append] at h3
          simp [h3]

theorem scanMatch_append_sep (label : Str) (cls : Char → Bool) (sfx : Str) (x : Char)
    (hlne : label ≠ []) (hxl : x ∉ label) (hxc : cls x = false) (hsne : sfx ≠ [])
    (hxs : x ∉ sfx) :
    ∀ A B, scanMatch label cls sfx A = none →
      scanMatch label cls sfx (A ++ x :: B) = scanMatch label cls sfx B := by
  have hsep : ∀ B : Str, tryAt label cls sfx (x :: B) = none := by
    intro B
    unfold tryAt
    cases label with
    | nil => exact absurd rfl hlne
    | cons a l =>
      have hax : ¬ (a = x) := fun hax => hxl (by rw [← hax]; exact List.mem_cons_self a l)
      simp only [stripLabel, if_neg hax]
  intro A
  induction A with
  | nil =>
    intro B _
    rw [List.nil_append, scanMatch, hsep B]
  | cons c A ih =>
    intro B h
    rw [scanMatch] at h
    cases htry : tryAt label cls sfx (c :: A) with
    | some run => rw [htry] at h; cases h
    | none =>
      rw [htry] at h
      rw [List.cons_append, scanMatch]
      have htry2 : tryAt label cls sfx (c :: (A ++ x :: B)) = none := by
        have := tryAt_none_ext label cls sfx x hxl hxc hsne hxs (c :: A) B htry
        rw [List.cons_append] at this
        exact this
      rw [htry2]
      exact ih B h

theorem scanMatch_skip_of_no_label_start (label : Str) (cls : Char → Bool) (sfx : Str) :
    ∀ A B, (∀ s, s <:+ A → s ≠ [] → stripLabel label (s ++ B) = none) →
      scanMatch label cls sfx (A ++ B) = scanMatch label cls sfx B := by
  intro A
  induction A with
  | nil => intro B _; rw [List.nil_append]
  | cons c A ih =>
    intro B h
    rw [List.cons_append, scanMatch]
    have hfail : stripLabel label ((c :: A) ++ B) = none :=
      h (c :: A) (List.suffix_refl _) (by simp)
    have htry : tryAt label cls sfx (c :: (A ++ B)) = none := by
      unfold tryAt
      rw [List.cons_append] at hfail
      rw [hfail]
    rw [htry]
    exact ih B (fun s hs hne => h s (hs.trans (List.suffix_cons c A)) hne)

theorem scanMatch_head_skip (a : Char) (label2 : Str) (cls : Char → Bool) (sfx : Str)
    (A B : Str) (h : ∀ c ∈ A, c ≠ a) :
    scanMatch (a :: label2) cls sfx (A ++ B) = scanMatch (a :: label2) cls sfx B := by
  apply scanMatch_skip_of_no_label_start
  intro s hs hne
  cases s with
  | nil => exact absurd rfl hne
  | cons c s2 =>
    have hca : ¬ (a = c) := by
      intro hac
      exact h c (hs.subset (List.mem_cons_self c s2)) hac.symm
    rw [List.cons_append]
    simp only [stripLabel, if_neg hca]

theorem scanMatch_front (a : Char) (label2 run : Str) (cls : Char → Bool) (sfx : Str)
    (y : Char) (t : Str) (hrun : run ≠ []) (hcls : ∀ c ∈ run, cls c = true)
    (hy : cls y = false) (hsfx : leadsWith sfx (y :: t) = true) :
    scanMatch (a :: label2) cls sfx ((a :: label2) ++ (run ++ y :: t)) = some run := by
  rw [List.cons_append, scanMatch]
  have htry : tryAt (a :: label2) cls sfx ((a :: label2) ++ (run ++ y :: t)) = some run := by
    unfold tryAt
    rw [stripLabel_append]
    have hspan := span_append cls y hy run t hcls
    simp only [hspan.1, hspan.2, if_neg hrun, hsfx, if_pos rfl]
    rfl
  rw [List.cons_append] at htry
  rw [htry]

theorem scanMatch_front_line (a : Char) (label2 : Str) (cls : Char → Bool) (y : Char)
    (sfx2 : Str) (run w : Str) (hrun : run ≠ []) (hcls : ∀ c ∈ run, cls c = true)
    (hy : cls y = false) :
    scanMatch (a :: label2) cls (y :: sfx2) ((a :: label2) ++ (run ++ ((y :: sfx2) ++ w))) =
      some run := by
  have hsfx : leadsWith (y :: sfx2) (y :: (sfx2 ++ w)) = true := by
    have := leadsWith_refl_append (y :: sfx2) w
    rw [List.cons_append] at this
    exact this
  have := scanMatch_front a label2 run cls (y :: sfx2) y (sfx2 ++ w) hrun hcls hy hsfx
  rw [List.cons_append] at this
  exact this

/-! ### Round-trip lemmas for the one-decimal formatting -/

theorem valNat_single (c : Char) : valNat [c] = dVal c := by
  simp [valNat]

theorem splitAtDot_at (A B : Str) (hA : ∀ c ∈ A, c ≠ '.') :
    splitAtDot (A ++ '.' :: B) = (A, some B) := by
  induction A with
  | nil => simp [splitAtDot]
  | cons c A ih =>
    have hc : ¬ (c = '.') := hA c (List.mem_cons_self c A)
    rw [List.cons_append, splitAtDot, if_neg hc,
      ih (fun x hx => hA x (List.mem_cons_of_mem c hx))]

theorem tenths_sum (n : ℕ) : ((n / 10 : ℕ) : ℚ) + ((n % 10 : ℕ) : ℚ) / 10 = (n : ℚ) / 10 := by
  field_simp
  have h2 : n / 10 * 10 + n % 10 = n := by omega
  exact_mod_cast h2

theorem formatFixed1_tenths (n : ℕ) :
    formatFixed1 ((n : ℚ) / 10) = natDigits (n / 10) ++ '.' :: [dChar (n % 10)] := by
  unfold formatFixed1
  have hround : round ((n : ℚ) / 10 * 10) = (n : ℤ) := by
    rw [div_mul_cancel₀]
    · exact round_natCast n
    · norm_num
  rw [hround]
  have hnn : ¬ ((n : ℤ) < 0) := by omega
  rw [if_neg hnn]
  simp [Int.natAbs_ofNat]

theorem parse_tenths (n : ℕ) :
    parseGoFloat (natDigits (n / 10) ++ '.' :: [dChar (n % 10)]) = some ((n : ℚ) / 10) := by
  have hdig := natDigits_all_digit (n / 10)
  have hne := natDigits_ne_nil (n / 10)
  have hmod : n % 10 < 10 := Nat.mod_lt n (by omega)
  have hsplit : splitAtDot (natDigits (n / 10) ++ '.' :: [dChar (n % 10)]) =
      (natDigits (n / 10), some [dChar (n % 10)]) :=
    splitAtDot_at _ _ (fun c hc => (isDigit_ne c (hdig c hc)).1)
  unfold parseGoFloat
  rw [hsplit]
  have hcond : (natDigits (n / 10)).all (fun c => c.isDigit) = true ∧
      ([dChar (n % 10)]).all (fun c => c.isDigit) = true ∧
      (natDigits (n / 10) ≠ [] ∨ [dChar (n % 10)] ≠ ([] : Str)) ∧
      ¬ ([dChar (n % 10)]).any (fun c => c = '.') = true := by
    refine ⟨List.all_eq_true.mpr hdig, ?_, Or.inl hne, ?_⟩
    · simp [dChar_isDigit (n % 10) hmod]
    · simp
      exact (isDigit_ne _ (dChar_isDigit (n % 10) hmod)).1
  simp only [if_pos hcond]
  rw [natDigits_val, valNat_single, dVal_dChar _ hmod]
  simp [tenths_sum n]

/-! ### Character membership facts for the composed lines -/

theorem isFloatClass_of_digit (c : Char) (h : c.isDigit = true) : isFloatClass c = true := by
  simp [isFloatClass, h]

theorem mem_lit_ne (L : Str) (a : Char) (hdec : L.all (fun c => decide (¬ (c = a))) = true) :
    ∀ c ∈ L, c ≠ a := by
  intro c hc
  have := List.all_eq_true.mp hdec c hc
  simpa using this

theorem floatclass_ne (c : Char) (h : isFloatClass c = true) :
    c ≠ 'Ê' ∧ c ≠ 'C' ∧ c ≠ '\n' := by
  have h2 : c.isDigit = true ∨ c = '.' := by simpa [isFloatClass] using h
  rcases h2 with hd | rfl
  · exact ⟨(isDigit_ne c hd).2.2.1, (isDigit_ne c hd).2.2.2.1, (isDigit_ne c hd).2.1⟩
  · refine ⟨by decide, by decide, by decide⟩

theorem natDigits_floatclass (k : ℕ) : ∀ c ∈ natDigits k, isFloatClass c = true :=
  fun c hc => isFloatClass_of_digit c (natDigits_all_digit k c hc)

theorem formatFixed1_tenths_class (n : ℕ) :
    (∀ c ∈ formatFixed1 ((n : ℚ) / 10), isFloatClass c = true) ∧
      formatFixed1 ((n : ℚ) / 10) ≠ [] := by
  rw [formatFixed1_tenths]
  constructor
  · intro c hc
    rcases List.mem_append.mp hc with h | h
    · exact natDigits_floatclass (n / 10) c h
    · rcases List.mem_cons.mp h with rfl | h
      · decide
      · rcases List.mem_singleton.mp h with rfl
        exact isFloatClass_of_digit _ (dChar_isDigit _ (Nat.mod_lt n (by omega)))
  · simp

theorem co2Icon_chars (v : ℤ) : ∀ c ∈ co2Icon v, c ≠ 'Ê' ∧ c ≠ 'C' ∧ c ≠ '\n' := by
  unfold co2Icon
  split_ifs <;> decide

theorem intToChars_chars (i : ℤ) : ∀ c ∈ intToChars i, c ≠ 'Ê' ∧ c ≠ 'C' ∧ c ≠ '\n' := by
  intro c hc
  unfold intToChars at hc
  by_cases hi : i < 0
  · rw [if_pos hi] at hc
    rcases List.mem_cons.mp hc with rfl | hc
    · refine ⟨by decide, by decide, by decide⟩
    · have := natDigits_all_digit i.natAbs c hc
      exact ⟨(isDigit_ne c this).2.2.1, (isDigit_ne c this).2.2.2.1, (isDigit_ne c this).2.1⟩
  · rw [if_neg hi] at hc
    have := natDigits_all_digit i.natAbs c hc
    exact ⟨(isDigit_ne c this).2.2.1, (isDigit_ne c this).2.2.2.1, (isDigit_ne c this).2.1⟩

theorem co2Line_ne_head (oc : Option ℤ) : ∀ c ∈ co2LineOf oc, c ≠ 'Ê' := by
  intro c hc
  cases oc with
  | none => cases hc
  | some v =>
    unfold co2LineOf at hc
    simp only [List.mem_append, List.mem_singleton] at hc
    rcases hc with (((h | h) | h) | h) | rfl
    · exact mem_lit_ne co2Label 'Ê' (by decide) c h
    · exact (intToChars_chars v c h).1
    · exact mem_lit_ne (toL "ppm ") 'Ê' (by decide) c h
    · exact (co2Icon_chars v c h).1
    · decide

theorem mem_of_suffix_cons (s t : Str) (c : Char) (s2 : Str) (hs : s <:+ t)
    (hc : s = c :: s2) : c ∈ t := by
  obtain ⟨u, hu⟩ := hs
  subst hc
  rw [← hu]
  exact List.mem_append_right u (List.mem_cons_self c s2)

theorem skip_line_mismatch (a b b' : Char) (labelT lineTail B : Str) (hb : ¬ (b = b'))
    (hab' : ¬ (a = b')) (hmem : ∀ c ∈ lineTail, c ≠ a) :
    ∀ s, s <:+ (a :: b' :: lineTail) → s ≠ [] →
      stripLabel (a :: b :: labelT) (s ++ B) = none := by
  intro s hs hne
  rcases List.suffix_cons_iff.mp hs with rfl | hs2
  · simp [List.cons_append, stripLabel, hb]
  · rcases List.suffix_cons_iff.mp hs2 with rfl | hs3
    · simp [List.cons_append, stripLabel, hab']
    · cases s with
      | nil => exact absurd rfl hne
      | cons c s2 =>
        have hca : ¬ (a = c) := by
          intro hac
          exact hmem c (mem_of_suffix_cons (c :: s2) lineTail c s2 hs3 rfl) hac.symm
        simp [List.cons_append, stripLabel, hca]

theorem scanMatch_skip_line (a b b' : Char) (labelT lineTail B : Str) (cls : Char → Bool)
    (sfx : Str) (hb : ¬ (b = b')) (hab' : ¬ (a = b')) (hmem : ∀ c ∈ lineTail, c ≠ a) :
    scanMatch (a :: b :: labelT) cls sfx ((a :: b' :: lineTail) ++ B) =
      scanMatch (a :: b :: labelT) cls sfx B :=
  scanMatch_skip_of_no_label_start (a :: b :: labelT) cls sfx (a :: b' :: lineTail) B
    (skip_line_mismatch a b b' labelT lineTail B hb hab' hmem)

theorem scanMatch_none_lit (label : Str) (a : Char) (label2 : Str) (hl : label = a :: label2)
    (cls : Char → Bool) (sfx : Str) (t : Str) (hmem : ∀ c ∈ t, c ≠ a) :
    scanMatch label cls sfx t = none := by
  subst hl
  have := scanMatch_head_skip a label2 cls sfx t [] hmem
  rw [List.append_nil] at this
  rw [this, scanMatch]

/-! ### Extraction over the composed message (C5 machinery) -/

theorem tempLine_shape (t : ℚ) (rest2 : Str) :
    tempLineOf (some t) ++ rest2 =
      ('Ê' :: toL "∏©Â∫¶: ") ++ (formatFixed1 t ++ (('Â' :: toL "∫¶") ++ ('\n' :: rest2))) := by
  show (((tempLabel ++ formatFixed1 t) ++ tempSfx) ++ ['\n']) ++ rest2 = _
  simp only [List.append_assoc, List.singleton_append]
  rfl

theorem scanTemp_some (n : ℕ) (rest2 : Str) :
    scanMatch tempLabel isFloatClass tempSfx (tempLineOf (some ((n : ℚ) / 10)) ++ rest2) =
      some (formatFixed1 ((n : ℚ) / 10)) := by
  rw [tempLine_shape]
  exact scanMatch_front_line 'Ê' (toL "∏©Â∫¶: ") isFloatClass 'Â' (toL "∫¶")
    (formatFixed1 ((n : ℚ) / 10)) ('\n' :: rest2)
    (formatFixed1_tenths_class n).2 (formatFixed1_tenths_class n).1 (by decide)

theorem humLine_tail_ne_head (Dh : Str) (hD : ∀ c ∈ Dh, isFloatClass c = true) :
    ∀ c ∈ ((toL "øÂ∫¶: " ++ Dh) ++ humSfx) ++ ['\n'], c ≠ 'Ê' := by
  intro c hc
  simp only [List.mem_append, List.mem_singleton] at hc
  rcases hc with ((h | h) | h) | rfl
  · exact mem_lit_ne (toL "øÂ∫¶: ") 'Ê' (by decide) c h
  · exact (floatclass_ne c (hD c h)).1
  · exact mem_lit_ne humSfx 'Ê' (by decide) c h
  · decide

theorem humLine_cons (h : ℚ) :
    humLineOf (some h) = 'Ê' :: 'π' :: (((toL "øÂ∫¶: " ++ formatFixed1 h) ++ humSfx) ++ ['\n']) := rfl

theorem tempLine_cons (t : ℚ) :
    tempLineOf (some t) = 'Ê' :: '∏' :: (((toL "©Â∫¶: " ++ formatFixed1 t) ++ tempSfx) ++ ['\n']) := rfl

theorem tempLine_tail_ne_head (Dt : Str) (hD : ∀ c ∈ Dt, isFloatClass c = true) :
    ∀ c ∈ ((toL "©Â∫¶: " ++ Dt) ++ tempSfx) ++ ['\n'], c ≠ 'Ê' := by
  intro c hc
  simp only [List.mem_append, List.mem_singleton] at hc
  rcases hc with ((h | h) | h) | rfl
  · exact mem_lit_ne (toL "©Â∫¶: ") 'Ê' (by decide) c h
  · exact (floatclass_ne c (hD c h)).1
  · exact mem_lit_ne tempSfx 'Ê' (by decide) c h
  · decide

theorem scanTemp_skip_hum (h : ℚ) (hD : ∀ c ∈ formatFixed1 h, isFloatClass c = true) (B : Str) :
    scanMatch tempLabel isFloatClass tempSfx (humLineOf (some h) ++ B) =
      scanMatch tempLabel isFloatClass tempSfx B := by
  rw [humLine_cons]
  exact scanMatch_skip_line 'Ê' '∏' 'π' (toL "©Â∫¶: ")
    (((toL "øÂ∫¶: " ++ formatFixed1 h) ++ humSfx) ++ ['\n']) B isFloatClass tempSfx
    (by decide) (by decide) (humLine_tail_ne_head (formatFixed1 h) hD)

theorem scanHum_skip_temp (t : ℚ) (hD : ∀ c ∈ formatFixed1 t, isFloatClass c = true) (B : Str) :
    scanMatch humLabel isFloatClass humSfx (tempLineOf (some t) ++ B) =
      scanMatch humLabel isFloatClass humSfx B := by
  rw [tempLine_cons]
  exact scanMatch_skip_line 'Ê' 'π' '∏' (toL "øÂ∫¶: ")
    (((toL "©Â∫¶: " ++ formatFixed1 t) ++ tempSfx) ++ ['\n']) B isFloatClass humSfx
    (by decide) (by decide) (tempLine_tail_ne_head (formatFixed1 t) hD)

theorem scanTemp_co2_none (oc : Option ℤ) :
    scanMatch tempLabel isFloatClass tempSfx (co2LineOf oc) = none :=
  scanMatch_none_lit tempLabel 'Ê' (toL "∏©Â∫¶: ") rfl isFloatClass tempSfx (co2LineOf oc)
    (co2Line_ne_head oc)

theorem scanHum_co2_none (oc : Option ℤ) :
    scanMatch humLabel isFloatClass humSfx (co2LineOf oc) = none :=
  scanMatch_none_lit humLabel 'Ê' (toL "πøÂ∫¶: ") rfl isFloatClass humSfx (co2LineOf oc)
    (co2Line_ne_head oc)

theorem humLine_front_shape (h : ℚ) (B : Str) :
    humLineOf (some h) ++ B =
      ('Ê' :: toL "πøÂ∫¶: ") ++ (formatFixed1 h ++ (('%' :: []) ++ ('\n' :: B))) := by
  show (((humLabel ++ formatFixed1 h) ++ humSfx) ++ ['\n']) ++ B = _
  simp only [List.append_assoc, List.singleton_append]
  rfl

theorem scanHum_some (n : ℕ) (B : Str) :
    scanMatch humLabel isFloatClass humSfx (humLineOf (some ((n : ℚ) / 10)) ++ B) =
      some (formatFixed1 ((n : ℚ) / 10)) := by
  rw [humLine_front_shape]
  exact scanMatch_front_line 'Ê' (toL "πøÂ∫¶: ") isFloatClass '%' []
    (formatFixed1 ((n : ℚ) / 10)) ('\n' :: B)
    (formatFixed1_tenths_class n).2 (formatFixed1_tenths_class n).1 (by decide)

theorem tempLineOf_ne_C (ot : Option ℚ)
    (ht : ∀ t, ot = some t → ∀ c ∈ formatFixed1 t, isFloatClass c = true) :
    ∀ c ∈ tempLineOf ot, c ≠ 'C' := by
  intro c hc
  cases ot with
  | none => cases hc
  | some t =>
    unfold tempLineOf at hc
    simp only [List.mem_append, List.mem_singleton] at hc
    rcases hc with ((h | h) | h) | rfl
    · exact mem_lit_ne tempLabel 'C' (by decide) c h
    · exact (floatclass_ne c (ht t rfl c h)).2.1
    · exact mem_lit_ne tempSfx 'C' (by decide) c h
    · decide

theorem humLineOf_ne_C (oh : Option ℚ)
    (hh : ∀ h, oh = some h → ∀ c ∈ formatFixed1 h, isFloatClass c = true) :
    ∀ c ∈ humLineOf oh, c ≠ 'C' := by
  intro c hc
  cases oh with
  | none => cases hc
  | some h =>
    unfold humLineOf at hc
    simp only [List.mem_append, List.mem_singleton] at hc
    rcases hc with ((h2 | h2) | h2) | rfl
    · exact mem_lit_ne humLabel 'C' (by decide) c h2
    · exact (floatclass_ne c (hh h rfl c h2)).2.1
    · exact mem_lit_ne humSfx 'C' (by decide) c h2
    · decide

theorem co2Line_front_shape (v : ℤ) (hv : ¬ (v < 0)) :
    co2LineOf (some v) =
      ('C' :: toL "O2: ") ++ (natDigits v.natAbs ++ (('p' :: toL "pm") ++
        (' ' :: (co2Icon v ++ ['\n'])))) := by
  show (((co2Label ++ intToChars v) ++ toL "ppm ") ++ co2Icon v) ++ ['\n'] = _
  rw [intToChars, if_neg hv]
  simp only [List.append_assoc, List.singleton_append]
  rfl

theorem scanCO2_some (v : ℤ) (hv : 0 ≤ v) :
    scanMatch co2Label isDigitClass co2Sfx (co2LineOf (some v)) = some (natDigits v.natAbs) := by
  rw [co2Line_front_shape v (by omega)]
  exact scanMatch_front_line 'C' (toL "O2: ") isDigitClass 'p' (toL "pm")
    (natDigits v.natAbs) (' ' :: (co2Icon v ++ ['\n']))
    (natDigits_ne_nil v.natAbs) (natDigits_all_digit v.natAbs) (by decide)

theorem extractTemp_lines (ot oh : Option ℚ) (oc : Option ℤ)
    (ht : ∀ t, ot = some t → ∃ n : ℕ, t = (n : ℚ) / 10)
    (hh : ∀ h, oh = some h → ∃ n : ℕ, h = (n : ℚ) / 10) :
    extractFloatValue tempLabel tempSfx ((tempLineOf ot ++ humLineOf oh) ++ co2LineOf oc) = ot := by
  cases ot with
  | some t =>
    obtain ⟨n, rfl⟩ := ht t rfl
    have hs := scanTemp_some n (humLineOf oh ++ co2LineOf oc)
    simp [extractFloatValue, hs, formatFixed1_tenths, parse_tenths]
  | none =>
    have hbody : (tempLineOf none ++ humLineOf oh) ++ co2LineOf oc =
        humLineOf oh ++ co2LineOf oc := by
      rw [show tempLineOf none = ([] : Str) from rfl, List.nil_append]
    rw [hbody]
    cases oh with
    | some h =>
      obtain ⟨m, rfl⟩ := hh h rfl
      have hs := scanTemp_skip_hum _ (formatFixed1_tenths_class m).1 (co2LineOf oc)
      simp [extractFloatValue, hs, scanTemp_co2_none]
    | none =>
      have hbody2 : humLineOf none ++ co2LineOf oc = co2LineOf oc := by
        rw [show humLineOf none = ([] : Str) from rfl, List.nil_append]
      rw [hbody2]
      simp [extractFloatValue, scanTemp_co2_none]

theorem extractHum_lines (ot oh : Option ℚ) (oc : Option ℤ)
    (ht : ∀ t, ot = some t → ∃ n : ℕ, t = (n : ℚ) / 10)
    (hh : ∀ h, oh = some h → ∃ n : ℕ, h = (n : ℚ) / 10) :
    extractFloatValue humLabel humSfx ((tempLineOf ot ++ humLineOf oh) ++ co2LineOf oc) = oh := by
  have hrest : extractFloatValue humLabel humSfx (humLineOf oh ++ co2LineOf oc) = oh := by
    cases oh with
    | some h =>
      obtain ⟨m, rfl⟩ := hh h rfl
      have hs := scanHum_some m (co2LineOf oc)
      simp [extractFloatValue, hs, formatFixed1_tenths, parse_tenths]
    | none =>
      have hbody2 : humLineOf none ++ co2LineOf oc = co2LineOf oc := by
        rw [show humLineOf none = ([] : Str) from rfl, List.nil_append]
      rw [hbody2]
      simp [extractFloatValue, scanHum_co2_none]
  cases ot with
  | some t =>
    obtain ⟨n, rfl⟩ := ht t rfl
    have hskip := scanHum_skip_temp _ (formatFixed1_tenths_class n).1
      (humLineOf oh ++ co2LineOf oc)
    rw [List.append_assoc]
    unfold extractFloatValue at hrest ⊢
    rw [hskip]
    exact hrest
  | none =>
    have hbody : (tempLineOf none ++ humLineOf oh) ++ co2LineOf oc =
        humLineOf oh ++ co2LineOf oc := by
      rw [show tempLineOf none = ([] : Str) from rfl, List.nil_append]
    rw [hbody]
    exact hrest

theorem parseGoInt_digits (v : ℤ) (hv : 0 ≤ v) :
    parseGoInt (natDigits v.natAbs) = some v := by
  unfold parseGoInt
  rw [if_pos ⟨natDigits_ne_nil v.natAbs, List.all_eq_true.mpr (natDigits_all_digit v.natAbs)⟩]
  rw [natDigits_val]
  congr 1
  omega

theorem extractCO2_lines (ot oh : Option ℚ) (oc : Option ℤ)
    (ht : ∀ t, ot = some t → ∃ n : ℕ, t = (n : ℚ) / 10)
    (hh : ∀ h, oh = some h → ∃ n : ℕ, h = (n : ℚ) / 10)
    (hc : ∀ v, oc = some v → 0 ≤ v) :
    extractIntValue co2Label co2Sfx ((tempLineOf ot ++ humLineOf oh) ++ co2LineOf oc) = oc := by
  have htC : ∀ c ∈ tempLineOf ot, c ≠ 'C' := by
    apply tempLineOf_ne_C
    intro t hteq
    obtain ⟨n, rfl⟩ := ht t hteq
    exact (formatFixed1_tenths_class n).1
  have hhC : ∀ c ∈ humLineOf oh, c ≠ 'C' := by
    apply humLineOf_ne_C
    intro h hheq
    obtain ⟨m, rfl⟩ := hh h hheq
    exact (formatFixed1_tenths_class m).1
  have hskip1 := scanMatch_head_skip 'C' (toL "O2: ") isDigitClass co2Sfx
    (tempLineOf ot) (humLineOf oh ++ co2LineOf oc) htC
  have hskip2 := scanMatch_head_skip 'C' (toL "O2: ") isDigitClass co2Sfx
    (humLineOf oh) (co2LineOf oc) hhC
  cases oc with
  | some v =>
    have hv := hc v rfl
    have hfront := scanCO2_some v hv
    unfold extractIntValue
    rw [List.append_assoc]
    rw [show ('C' :: toL "O2: ") = co2Label from rfl] at hskip1 hskip2
    rw [hskip1, hskip2, hfront]
    simp [parseGoInt_digits v hv]
  | none =>
    unfold extractIntValue
    rw [List.append_assoc]
    rw [show ('C' :: toL "O2: ") = co2Label from rfl] at hskip1 hskip2
    rw [hskip1, hskip2]
    rfl

theorem extract_full (H : Str) (status : SwitchBotDeviceStatus)
    (ht : ∀ t, status.temperature = some t → ∃ n : ℕ, t = (n : ℚ) / 10)
    (hh : ∀ h, status.humidity = some h → ∃ n : ℕ, h = (n : ℚ) / 10)
    (hc : ∀ v, status.CO2 = some v → 0 ≤ v)
    (hH_t : scanMatch tempLabel isFloatClass tempSfx H = none)
    (hH_h : scanMatch humLabel isFloatClass humSfx H = none)
    (hH_c : scanMatch co2Label isDigitClass co2Sfx H = none) :
    extractFloatValue tempLabel tempSfx (H ++ '\n' :: fieldLinesText status) =
      status.temperature ∧
    extractFloatValue humLabel humSfx (H ++ '\n' :: fieldLinesText status) =
      status.humidity ∧
    extractIntValue co2Label co2Sfx (H ++ '\n' :: fieldLinesText status) = status.CO2 := by
  have hsep_t := scanMatch_append_sep tempLabel isFloatClass tempSfx '\n'
    (by decide) (by decide) (by decide) (by decide) (by decide) H (fieldLinesText status) hH_t
  have hsep_h := scanMatch_append_sep humLabel isFloatClass humSfx '\n'
    (by decide) (by decide) (by decide) (by decide) (by decide) H (fieldLinesText status) hH_h
  have hsep_c := scanMatch_append_sep co2Label isDigitClass co2Sfx '\n'
    (by decide) (by decide) (by decide) (by decide) (by decide) H (fieldLinesText status) hH_c
  have hT := extractTemp_lines status.temperature status.humidity status.CO2 ht hh
  have hH := extractHum_lines status.temperature status.humidity status.CO2 ht hh
  have hC := extractCO2_lines status.temperature status.humidity status.CO2 ht hh hc
  refine ⟨?_, ?_, ?_⟩
  · unfold extractFloatValue at hT ⊢
    rw [hsep_t]
    exact hT
  · unfold extractFloatValue at hH ⊢
    rw [hsep_h]
    exact hH
  · unfold extractIntValue at hC ⊢
    rw [hsep_c]
    exact hC

theorem parseGoFloat_eval_frac (s ip fp : Str) (hsplit : splitAtDot s = (ip, some fp))
    (hcond : (ip.all (fun c => c.isDigit) = true) ∧ (fp.all (fun c => c.isDigit) = true) ∧
      (ip ≠ [] ∨ fp ≠ []) ∧ ¬ (fp.any (fun c => c = '.') = true)) :
    parseGoFloat s = some ((valNat ip : ℚ) + (valNat fp : ℚ) / (10 : ℚ) ^ fp.length) := by
  unfold parseGoFloat
  rw [hsplit]
  exact if_pos hcond

theorem parse_2350_eq_235 : parseGoFloat (toL "23.50") = parseGoFloat (toL "23.5") := by
  rw [parseGoFloat_eval_frac (toL "23.50") ['2', '3'] ['5', '0'] (by decide) (by decide),
    parseGoFloat_eval_frac (toL "23.5") ['2', '3'] ['5'] (by decide) (by decide)]
  rw [show valNat ['2', '3'] = 23 from by decide, show valNat ['5', '0'] = 50 from by decide,
    show valNat ['5'] = 5 from by decide]
  norm_num

theorem parse_235_ne_236 : parseGoFloat (toL "23.5") ≠ parseGoFloat (toL "23.6") := by
  rw [parseGoFloat_eval_frac (toL "23.5") ['2', '3'] ['5'] (by decide) (by decide),
    parseGoFloat_eval_frac (toL "23.6") ['2', '3'] ['6'] (by decide) (by decide)]
  rw [show valNat ['2', '3'] = 23 from by decide, show valNat ['5'] = 5 from by decide,
    show valNat ['6'] = 6 from by decide]
  norm_num

/-! ### C5: round trip of the composer's own output -/

/-- C5 (amended): for every reading whose present temperature and humidity are
nonnegative exact multiples of one tenth and whose present CO2 is nonnegative,
and whose header line (device header plus battery part) contains no occurrence
of any of the three field patterns, parsing the Message Composer's own rendered
output recovers exactly the field values that produced it (present fields parse
back equal, absent fields parse back absent), so the reading is classified
repeated against a history consisting solely of its own rendered message; and
the texts 23.50 and 23.5 parse to equal values while 23.5 and 23.6 parse to
unequal values. -/
theorem c5_roundtrip (deviceName : Str) (posts : List MastodonPost)
    (status : SwitchBotDeviceStatus) (M bp : Str)
    (hcore : generateStatusMessageCore deviceName posts status = .ok M)
    (hbp : batteryPartResult deviceName posts status = .ok bp)
    (ht : ∀ t, status.temperature = some t → ∃ n : ℕ, t = (n : ℚ) / 10)
    (hh : ∀ h, status.humidity = some h → ∃ n : ℕ, h = (n : ℚ) / 10)
    (hc : ∀ v, status.CO2 = some v → 0 ≤ v)
    (hH_t : scanMatch tempLabel isFloatClass tempSfx (makeDeviceHeader deviceName ++ bp) = none)
    (hH_h : scanMatch humLabel isFloatClass humSfx (makeDeviceHeader deviceName ++ bp) = none)
    (hH_c : scanMatch co2Label isDigitClass co2Sfx (makeDeviceHeader deviceName ++ bp) = none) :
    extractFloatValue tempLabel tempSfx M = status.temperature ∧
    extractFloatValue humLabel humSfx M = status.humidity ∧
    extractIntValue co2Label co2Sfx M = status.CO2 ∧
    isRepeated status [M] = true ∧
    parseGoFloat (toL "23.50") = parseGoFloat (toL "23.5") ∧
    parseGoFloat (toL "23.5") ≠ parseGoFloat (toL "23.6") := by
  have hM : M = (makeDeviceHeader deviceName ++ bp) ++ '\n' :: fieldLinesText status := by
    unfold generateStatusMessageCore at hcore
    rw [hbp] at hcore
    simp only [List.append_assoc] at hcore ⊢
    cases hcore
    rfl
  subst hM
  obtain ⟨h1, h2, h3⟩ := extract_full (makeDeviceHeader deviceName ++ bp) status
    ht hh hc hH_t hH_h hH_c
  refine ⟨h1, h2, h3, ?_, parse_2350_eq_235, parse_235_ne_236⟩
  rw [isRepeated_iff]
  intro m hm
  rcases List.mem_singleton.mp hm with rfl
  exact ⟨h1, h2, h3⟩

/-- C5 counterexample: for the reading with temperature -0.5 (present, exactly
representable at one decimal place) the composed line renders as -0.5, but the
extraction pattern cannot match a minus sign, so re-parsing the composer's own
output yields an absent temperature instead of -0.5 and the reading is NOT
classified repeated against its own rendered message, contradicting the claim. -/
theorem c5_roundtrip_counterexample :
    generateStatusMessageCore (toL "Room") [] ⟨none, some (-(1 / 2 : ℚ)), none, none⟩ =
      .ok (toL "# Room\nÊ∏©Â∫¶: -0.5Â∫¶\n") ∧
    extractFloatValue tempLabel tempSfx (toL "# Room\nÊ∏©Â∫¶: -0.5Â∫¶\n") = none ∧
    isRepeated ⟨none, some (-(1 / 2 : ℚ)), none, none⟩ [toL "# Room\nÊ∏©Â∫¶: -0.5Â∫¶\n"] =
      false := by
  have hfmt : formatFixed1 (-(1 / 2 : ℚ)) = toL "-0.5" := by
    have h : (-(1 / 2 : ℚ)) * 10 = ((-5 : ℤ) : ℚ) := by norm_num
    unfold formatFixed1
    rw [h, round_intCast]
    decide
  refine ⟨?_, by decide, by decide⟩
  show Except.ok ((makeDeviceHeader (toL "Room") ++ []) ++
    '\n' :: fieldLinesText ⟨none, some (-(1 / 2 : ℚ)), none, none⟩) = _
  rw [show fieldLinesText ⟨none, some (-(1 / 2 : ℚ)), none, none⟩ =
    (tempLineOf (some (-(1 / 2 : ℚ))) ++ []) ++ [] from rfl]
  rw [show tempLineOf (some (-(1 / 2 : ℚ))) =
    ((tempLabel ++ formatFixed1 (-(1 / 2 : ℚ))) ++ tempSfx) ++ ['\n'] from rfl]
  rw [hfmt]
  rfl

/-- C5 witness: the amended round-trip theorem applied at a concrete device and
reading (temperature 23.5, humidity 45.2, CO2 850, no battery). -/
theorem c5_roundtrip_witness :
    extractFloatValue tempLabel tempSfx ((makeDeviceHeader (toL "Room") ++ []) ++
      '\n' :: fieldLinesText ⟨none, some (47 / 2 : ℚ), some (226 / 5 : ℚ), some 850⟩) =
      some (47 / 2 : ℚ) ∧
    extractFloatValue humLabel humSfx ((makeDeviceHeader (toL "Room") ++ []) ++
      '\n' :: fieldLinesText ⟨none, some (47 / 2 : ℚ), some (226 / 5 : ℚ), some 850⟩) =
      some (226 / 5 : ℚ) ∧
    extractIntValue co2Label co2Sfx ((makeDeviceHeader (toL "Room") ++ []) ++
      '\n' :: fieldLinesText ⟨none, some (47 / 2 : ℚ), some (226 / 5 : ℚ), some 850⟩) =
      some 850 ∧
    isRepeated ⟨none, some (47 / 2 : ℚ), some (226 / 5 : ℚ), some 850⟩
      [(makeDeviceHeader (toL "Room") ++ []) ++
        '\n' :: fieldLinesText ⟨none, some (47 / 2 : ℚ), some (226 / 5 : ℚ), some 850⟩] =
      true ∧
    parseGoFloat (toL "23.50") = parseGoFloat (toL "23.5") ∧
    parseGoFloat (toL "23.5") ≠ parseGoFloat (toL "23.6") := by
  have h := c5_roundtrip (toL "Room") [] ⟨none, some (47 / 2 : ℚ), some (226 / 5 : ℚ), some 850⟩
    ((makeDeviceHeader (toL "Room") ++ []) ++
      '\n' :: fieldLinesText ⟨none, some (47 / 2 : ℚ), some (226 / 5 : ℚ), some 850⟩) []
    rfl rfl
    (fun t hteq => ⟨235, by
      injection hteq with h2
      rw [← h2]
      norm_num⟩)
    (fun hv hheq => ⟨452, by
      injection hheq with h2
      rw [← h2]
      norm_num⟩)
    (fun v hveq => by
      injection hveq with h2
      omega)
    (by decide) (by decide) (by decide)
  exact h

/-! ### C7: one line per present field, CO2 tier icons -/

theorem formatFixed1_no_newline (q : ℚ) : ∀ c ∈ formatFixed1 q, c ≠ '\n' := by
  intro c hc
  unfold formatFixed1 at hc
  rcases List.mem_append.mp hc with h | h
  · rcases List.mem_append.mp h with h | h
    · by_cases hneg : round (q * 10) < 0
      · rw [if_pos hneg] at h
        rcases List.mem_singleton.mp h with rfl
        decide
      · rw [if_neg hneg] at h
        cases h
    · exact (isDigit_ne c (natDigits_all_digit _ c h)).2.1
  · rcases List.mem_cons.mp h with rfl | h
    · decide
    · rcases List.mem_singleton.mp h with rfl
      exact (isDigit_ne _ (dChar_isDigit _ (Nat.mod_lt _ (by omega)))).2.1

theorem count_nl_line (ot : Option ℚ) (lab sfx : Str) (hlab : lab.count '\n' = 0)
    (hsfx : sfx.count '\n' = 0) :
    (match ot with
      | none => ([] : Str)
      | some t => ((lab ++ formatFixed1 t) ++ sfx) ++ ['\n']).count '\n' =
      if ot.isSome then 1 else 0 := by
  cases ot with
  | none => rfl
  | some t =>
    simp only [Option.isSome_some, if_pos]
    rw [List.count_append, List.count_append, List.count_append, hlab, hsfx]
    rw [List.count_eq_zero.mpr (fun hmem => formatFixed1_no_newline t '\n' hmem rfl)]
    rfl

theorem count_nl_tempLine (ot : Option ℚ) :
    (tempLineOf ot).count '\n' = if ot.isSome then 1 else 0 := by
  have h := count_nl_line ot tempLabel tempSfx (by decide) (by decide)
  cases ot with
  | none => exact h
  | some t => exact h

theorem count_nl_humLine (oh : Option ℚ) :
    (humLineOf oh).count '\n' = if oh.isSome then 1 else 0 := by
  have h := count_nl_line oh humLabel humSfx (by decide) (by decide)
  cases oh with
  | none => exact h
  | some t => exact h

theorem count_nl_co2Line (oc : Option ℤ) :
    (co2LineOf oc).count '\n' = if oc.isSome then 1 else 0 := by
  cases oc with
  | none => rfl
  | some v =>
    simp only [Option.isSome_some, if_pos, co2LineOf]
    rw [List.count_append, List.count_append, List.count_append, List.count_append]
    rw [List.count_eq_zero.mpr (fun hmem => (intToChars_chars v '\n' hmem).2.2 rfl)]
    rw [List.count_eq_zero.mpr (fun hmem => (co2Icon_chars v '\n' hmem).2.2 rfl)]
    rfl

/-- C7: the composed message contains one line per present field and no line
for an absent field; the CO2 line carries the alert icon when CO2 is at least
1500 ppm, the caution icon when it is in [1000, 1500), and the normal icon
below 1000; a reading with all three fields absent still produces its header
line. -/
theorem c7_lines_and_icons (deviceName : Str) (posts : List MastodonPost)
    (status : SwitchBotDeviceStatus) :
    (status.temperature = none → status.humidity = none → status.CO2 = none →
      ∀ bp, batteryPartResult deviceName posts status = .ok bp →
      generateStatusMessageCore deviceName posts status =
        .ok (makeDeviceHeader deviceName ++ bp ++ ['\n'])) ∧
    (tempLineOf none = ([] : Str) ∧ humLineOf none = ([] : Str) ∧
      co2LineOf none = ([] : Str)) ∧
    (∀ c : ℤ, co2LineOf (some c) =
        co2Label ++ intToChars c ++ toL "ppm " ++ co2Icon c ++ ['\n'] ∧
      (1500 ≤ c → co2Icon c = fireIcon) ∧
      (1000 ≤ c → c < 1500 → co2Icon c = windIcon) ∧
      (c < 1000 → co2Icon c = treeIcon)) ∧
    (∀ M bp, generateStatusMessageCore deviceName posts status = .ok M →
      batteryPartResult deviceName posts status = .ok bp →
      M.count '\n' = (makeDeviceHeader deviceName ++ bp).count '\n' + 1 +
        presentFieldCount status) := by
  refine ⟨?_, ⟨rfl, rfl, rfl⟩, ?_, ?_⟩
  · intro h1 h2 h3 bp hbp
    unfold generateStatusMessageCore
    rw [hbp]
    simp [fieldLinesText, h1, h2, h3, tempLineOf, humLineOf, co2LineOf]
  · intro c
    refine ⟨rfl, ?_, ?_, ?_⟩
    · intro hc
      unfold co2Icon
      rw [if_pos hc]
    · intro hc1 hc2
      unfold co2Icon
      rw [if_neg (by omega), if_pos hc1]
    · intro hc
      unfold co2Icon
      rw [if_neg (by omega), if_neg (by omega)]
  · intro M bp hcore hbp
    have hM : M = (makeDeviceHeader deviceName ++ bp) ++ '\n' :: fieldLinesText status := by
      unfold generateStatusMessageCore at hcore
      rw [hbp] at hcore
      simp only [List.append_assoc] at hcore ⊢
      cases hcore
      rfl
    subst hM
    unfold fieldLinesText
    simp only [List.count_append, List.count_cons_self, count_nl_tempLine, count_nl_humLine,
      count_nl_co2Line]
    unfold presentFieldCount
    omega

/-- C7 witness: the theorem applied at a reading with humidity absent,
temperature present and CO2 = 1200 (caution tier), and at an all-absent
reading. -/
theorem c7_lines_and_icons_witness :
    co2Icon 1200 = windIcon ∧
    generateStatusMessageCore (toL "Room") [] ⟨none, none, none, none⟩ =
      .ok (makeDeviceHeader (toL "Room") ++ [] ++ ['\n']) ∧
    ((makeDeviceHeader (toL "Room") ++ []) ++
        '\n' :: fieldLinesText ⟨none, some (47 / 2 : ℚ), none, some 1200⟩).count '\n' =
      (makeDeviceHeader (toL "Room") ++ []).count '\n' + 1 +
        presentFieldCount ⟨none, some (47 / 2 : ℚ), none, some 1200⟩ := by
  refine ⟨((c7_lines_and_icons (toL "Room") [] ⟨none, none, none, some 1200⟩).2.2.1
      1200).2.2.1 (by omega) (by omega), ?_, ?_⟩
  · exact (c7_lines_and_icons (toL "Room") [] ⟨none, none, none, none⟩).1 rfl rfl rfl [] rfl
  · exact (c7_lines_and_icons (toL "Room") [] ⟨none, some (47 / 2 : ℚ), none, some 1200⟩).2.2.2
      ((makeDeviceHeader (toL "Room") ++ []) ++
        '\n' :: fieldLinesText ⟨none, some (47 / 2 : ℚ), none, some 1200⟩) [] rfl rfl

/-- C2 witness: the theorem applied at a concrete reading and single-entry
history whose parsed fields all match (all three absent on both sides), and at
a reading with one changed field, which flips the result. -/
theorem c2_repeated_iff_all_match_witness :
    isRepeated ⟨some 85, none, none, none⟩ [toL "temperature-free post"] = true ∧
    isRepeated ⟨some 85, some (23 : ℚ), none, none⟩ [toL "temperature-free post"] = false := by
  have h := c2_repeated_iff_all_match ⟨some 85, none, none, none⟩
    [toL "temperature-free post"] (by decide)
  have hmatch : ∀ m ∈ [toL "temperature-free post"],
      extractFloatValue tempLabel tempSfx m =
        (⟨some 85, none, none, none⟩ : SwitchBotDeviceStatus).temperature ∧
      extractFloatValue humLabel humSfx m =
        (⟨some 85, none, none, none⟩ : SwitchBotDeviceStatus).humidity ∧
      extractIntValue co2Label co2Sfx m =
        (⟨some 85, none, none, none⟩ : SwitchBotDeviceStatus).CO2 := by decide
  refine ⟨(h.1).mpr hmatch, ?_⟩
  exact h.2.2.1 ⟨some 85, some (23 : ℚ), none, none⟩ ((h.1).mpr hmatch)
    (Or.inl ⟨by decide, rfl, rfl⟩)

/-! ### C9: the matching-entry set of the history parser -/

theorem firstSuffix_some_iff (pat : Str) : ∀ text s : Str,
    firstSuffix pat text = some s ↔
      (pat <+: s ∧ s <:+ text ∧
        ∀ u, u <:+ text → pat <+: u → u.length ≤ s.length) := by
  intro text
  induction text with
  | nil =>
    intro s
    rw [firstSuffix]
    by_cases hp : leadsWith pat [] = true
    · rw [if_pos hp]
      have hpat : pat = [] := by
        cases pat with
        | nil => rfl
        | cons a l => simp [leadsWith] at hp
      subst hpat
      constructor
      · intro h
        injection h with h
        subst h
        exact ⟨ List.nil_prefix, List.suffix_refl _, fun u hu _ => List.IsSuffix.length_le hu⟩
      · rintro ⟨h1, h2, h3⟩
        rw [List.suffix_nil.mp h2]
    · rw [if_neg hp]
      constructor
      · intro h; cases h
      · rintro ⟨h1, h2, h3⟩
        rw [List.suffix_nil.mp h2] at h1
        exact absurd ((leadsWith_iff pat []).mpr h1) hp
  | cons c rest ih =>
    intro s
    rw [firstSuffix]
    by_cases hp : leadsWith pat (c :: rest) = true
    · rw [if_pos hp]
      constructor
      · intro h
        injection h with h
        subst h
        exact ⟨(leadsWith_iff pat _).mp hp, List.suffix_refl _,
          fun u hu _ => List.IsSuffix.length_le hu⟩
      · rintro ⟨h1, h2, h3⟩
        have hle := h3 (c :: rest) (List.suffix_refl _) ((leadsWith_iff pat _).mp hp)
        have hlen : s.length = (c :: rest).length :=
          le_antisymm (List.IsSuffix.length_le h2) hle
        rw [List.IsSuffix.eq_of_length h2 hlen]
    · rw [if_neg hp, ih s]
      have hnp : ¬ pat <+: (c :: rest) := fun hpp => hp ((leadsWith_iff pat _).mpr hpp)
      constructor
      · rintro ⟨h1, h2, h3⟩
        refine ⟨h1, h2.trans (List.suffix_cons c rest), ?_⟩
        intro u hu hu2
        rcases List.suffix_cons_iff.mp hu with rfl | hu3
        · exact absurd hu2 hnp
        · exact h3 u hu3 hu2
      · rintro ⟨h1, h2, h3⟩
        have hs2 : s <:+ rest := by
          rcases List.suffix_cons_iff.mp h2 with rfl | h
          · exact absurd h1 hnp
          · exact h
        exact ⟨h1, hs2, fun u hu hu2 => h3 u (hu.trans (List.suffix_cons c rest)) hu2⟩

theorem firstSuffix_isSome_of (pat : Str) : ∀ text : Str,
    (∃ s, s <:+ text ∧ pat <+: s) → (firstSuffix pat text).isSome = true := by
  intro text
  induction text with
  | nil =>
    rintro ⟨s, hs, hp⟩
    rw [List.suffix_nil.mp hs] at hp
    rw [firstSuffix, if_pos ((leadsWith_iff pat []).mpr hp)]
    rfl
  | cons c rest ih =>
    rintro ⟨s, hs, hp⟩
    rw [firstSuffix]
    by_cases hl : leadsWith pat (c :: rest) = true
    · rw [if_pos hl]; rfl
    · rw [if_neg hl]
      apply ih
      rcases List.suffix_cons_iff.mp hs with rfl | h
      · exact absurd ((leadsWith_iff pat _).mpr hp) hl
      · exact ⟨s, h, hp⟩

/-- C9: for every device name and post list, the matching-entry set is exactly
one entry per post whose tag-stripped text contains the header token as a plain
substring, namely the suffix from the first occurrence of the token to the end
of the whole post; the first occurrence is characterized as the longest
token-led suffix (so the entry extends to the very end of the post, never
truncated at a later device's header), and a post mentioning any device name
that extends the given one as a longer name also produces a matching entry for
the shorter name. -/
theorem c9_matching_entries (deviceName : Str) (posts : List MastodonPost) :
    (extractRecentMessagesForDevice deviceName posts =
      .ok (posts.filterMap fun post =>
        firstSuffix (makeDeviceHeader deviceName) (stripHTMLTags post.content))) ∧
    (∀ text s, firstSuffix (makeDeviceHeader deviceName) text = some s ↔
      (makeDeviceHeader deviceName <+: s ∧ s <:+ text ∧
        ∀ u, u <:+ text → makeDeviceHeader deviceName <+: u → u.length ≤ s.length)) ∧
    (∀ ext text, makeDeviceHeader (deviceName ++ ext) <:+: text →
      (firstSuffix (makeDeviceHeader deviceName) text).isSome = true) := by
  refine ⟨rfl, firstSuffix_some_iff (makeDeviceHeader deviceName), ?_⟩
  intro ext text hinf
  obtain ⟨u, v, huv⟩ := hinf
  apply firstSuffix_isSome_of
  refine ⟨makeDeviceHeader (deviceName ++ ext) ++ v, ⟨u, ?_⟩, ?_⟩
  · rw [← huv]
    simp [List.append_assoc]
  · have hpre : makeDeviceHeader deviceName <+: makeDeviceHeader (deviceName ++ ext) := by
      unfold makeDeviceHeader
      rw [← List.append_assoc]
      exact List.prefix_append _ _
    exact hpre.trans (List.prefix_append _ _)

/-- C9 witness: a combined post mentioning the longer name "Living Room"
produces a matching entry for the shorter name "Living", and the entry runs to
the end of the whole post, past the second device's header. -/
theorem c9_matching_entries_witness :
    (firstSuffix (makeDeviceHeader (toL "Living")) (toL "x# Living Room a\n# Desk b")).isSome
      = true ∧
    makeDeviceHeader (toL "Living") <+: toL "# Living Room a\n# Desk b" ∧
    toL "# Living Room a\n# Desk b" <:+ toL "x# Living Room a\n# Desk b" := by
  have h2 := ((c9_matching_entries (toL "Living") []).2.1
    (toL "x# Living Room a\n# Desk b") (toL "# Living Room a\n# Desk b")).mp (by decide)
  exact ⟨(c9_matching_entries (toL "Living") []).2.2 (toL " Room")
    (toL "x# Living Room a\n# Desk b") (by decide), h2.1, h2.2.1⟩

/-- C10 witness: the theorem applied at a concrete device, post list and failed
status fetch: the generation error is exactly the fetch error, and the battery
emoji computation succeeds. -/
theorem c10_error_propagation_witness :
    (∃ e, generateStatusMessage ⟨toL "A", toL "Meter", toL "Room"⟩ []
      (.error (toL "boom")) (.ok ()) = .error e) ∧
    (∃ emoji, batteryStatusEmoji (toL "Room") [] ⟨some 85, none, none, none⟩ = .ok emoji) :=
  ⟨(c10_error_propagation (toL "Room") [] ⟨some 85, none, none, none⟩
      ⟨toL "A", toL "Meter", toL "Room"⟩ (.error (toL "boom")) (.ok ())).2.2.1.mpr
    ⟨toL "boom", rfl⟩,
   (c10_error_propagation (toL "Room") [] ⟨some 85, none, none, none⟩
      ⟨toL "A", toL "Meter", toL "Room"⟩ (.error (toL "boom")) (.ok ())).2.1⟩
